import Mathlib

/-!
Verification of the context-budget management subsystem and the exporters of
the Anthropic-UI chat client.

The development shallowly embeds `src/lib/tokens.ts` and the
`ConversationExporter` class of `src/lib/export.ts`.  JavaScript strings are
modelled as Lean `String`/`List Char`; JavaScript numbers that carry monetary
amounts or ratios are modelled as `ℚ`; token counts are modelled as `ℕ`.
The external `gpt-tokenizer` library's `encode` function is modelled as an
abstract parameter `Encoder`, where `none` models a thrown exception.
`Date` objects are modelled by the strings the code extracts from them.
-/

/-- The `encode` function of the external `gpt-tokenizer` package:
returns the token array, or `none` when the tokenizer throws. -/
abbrev Encoder : Type := String → Option (List Nat)

/-- The whitespace class of JavaScript (`\s`, `String.prototype.trim`),
restricted to the ASCII range. -/
def jsIsSpace (c : Char) : Bool :=
  c == ' ' || c == '\t' || c == '\n' || c == '\r' || c == '\x0b' || c == '\x0c'

/-- `String.prototype.trim`: drop leading and trailing whitespace. -/
def jsTrimList (l : List Char) : List Char :=
  ((l.dropWhile jsIsSpace).reverse.dropWhile jsIsSpace).reverse

/-- JavaScript `x || d` on an optional number: `0` and `undefined` are falsy. -/
def jsOrNat (v : Option Nat) (d : Nat) : Nat :=
  match v with
  | some n => if n = 0 then d else n
  | none => d

/-- `countTokens` (src/lib/tokens.ts, lines 33-44):
empty or whitespace-only input yields 0; otherwise the tokenizer's token
count, falling back to `ceil(length / 4)` when the tokenizer throws. -/
def countTokens (enc : Encoder) (text : String) : Nat :=
  if text.data = [] ∨ jsTrimList text.data = [] then 0
  else
    match enc text with
    | some tokens => tokens.length
    | none => (text.data.length + 3) / 4

/-- A row of the `CLAUDE_PRICING` table (per-million-token prices). -/
structure Pricing where
  input : ℚ
  output : ℚ
deriving DecidableEq, Repr

/-- `CLAUDE_PRICING` (src/lib/tokens.ts, lines 5-18). -/
def CLAUDE_PRICING (model : String) : Option Pricing :=
  if model = "claude-3-5-sonnet-20241022" then some ⟨3, 15⟩
  else if model = "claude-3-opus-20240229" then some ⟨15, 75⟩
  else if model = "claude-3-haiku-20240307" then some ⟨1/4, 5/4⟩
  else none

/-- The `type` argument of `calculateCost`. -/
inductive CostType where
  | input
  | output
deriving DecidableEq, Repr

/-- The price `pricing[type]` selected by `calculateCost` (line 54). -/
def priceFor (type : CostType) (p : Pricing) : ℚ :=
  match type with
  | CostType.input => p.input
  | CostType.output => p.output

/-- `calculateCost` (src/lib/tokens.ts, lines 46-56). -/
def calculateCost (tokens : ℚ) (model : String) (type : CostType) : ℚ :=
  match CLAUDE_PRICING model with
  | none => 0
  | some pricing =>
      let pricePerToken := priceFor type pricing / 1000000
      tokens * pricePerToken

/-- `CONTEXT_LIMITS` (src/lib/tokens.ts, lines 21-25). -/
def CONTEXT_LIMITS (model : String) : Option Nat :=
  if model = "claude-3-5-sonnet-20241022" then some 200000
  else if model = "claude-3-opus-20240229" then some 200000
  else if model = "claude-3-haiku-20240307" then some 200000
  else none

/-- `CONTEXT_THRESHOLDS.WARNING` (src/lib/tokens.ts, line 28). -/
def THRESHOLD_WARNING : ℚ := 7/10

/-- `CONTEXT_THRESHOLDS.CRITICAL` (src/lib/tokens.ts, line 29). -/
def THRESHOLD_CRITICAL : ℚ := 17/20

/-- `CONTEXT_THRESHOLDS.EMERGENCY` (src/lib/tokens.ts, line 30). -/
def THRESHOLD_EMERGENCY : ℚ := 19/20

/-- The `role` field of a message. -/
inductive Role where
  | user
  | assistant
deriving DecidableEq, Repr

/-- A JavaScript `Date`, modelled by the strings the embedded code reads
from it (`toISOString`, `toLocaleDateString`, `toLocaleTimeString`). -/
structure Date where
  iso : String
  localeDate : String
  localeTime : String
deriving DecidableEq, Repr

/-- `MessageWithTokens` (src/lib/tokens.ts, lines 91-97). -/
structure MessageWithTokens where
  id : String
  role : Role
  content : String
  timestamp : Date
  tokens : Option Nat
deriving DecidableEq, Repr

/-- `getTotalConversationTokens` (src/lib/tokens.ts, lines 68-75). -/
def getTotalConversationTokens (enc : Encoder) (messages : List MessageWithTokens) : Nat :=
  messages.foldl (fun total message => total + countTokens enc message.content) 0

/-- The `status` tier of `getContextStatus`. -/
inductive Tier where
  | safe
  | warning
  | critical
  | emergency
deriving DecidableEq, Repr

/-- The result record of `getContextStatus`. -/
structure ContextStatus where
  totalTokens : Nat
  percentage : ℚ
  status : Tier
  limit : Nat
deriving DecidableEq, Repr

/-- `getContextStatus` (src/lib/tokens.ts, lines 99-123). -/
def getContextStatus (enc : Encoder) (messages : List MessageWithTokens)
    (model : String) : ContextStatus :=
  let limit := jsOrNat (CONTEXT_LIMITS model) 200000
  let totalTokens := getTotalConversationTokens enc messages
  let percentage : ℚ := (totalTokens : ℚ) / (limit : ℚ)
  let status :=
    if percentage ≥ THRESHOLD_EMERGENCY then Tier.emergency
    else if percentage ≥ THRESHOLD_CRITICAL then Tier.critical
    else if percentage ≥ THRESHOLD_WARNING then Tier.warning
    else Tier.safe
  ⟨totalTokens, percentage, status, limit⟩

/-- The `strategy` argument of `trimConversation`. -/
inductive Strategy where
  | recent
  | important
deriving DecidableEq, Repr

/-- The result record of `trimConversation`. -/
structure TrimResult where
  trimmedMessages : List MessageWithTokens
  removedCount : Nat
  tokensSaved : Nat
deriving DecidableEq, Repr

/-- `messagesWithTokens` (src/lib/tokens.ts, lines 139-142): fill in the
`tokens` field from the cache or by counting. -/
def withTokens (enc : Encoder) (messages : List MessageWithTokens) :
    List MessageWithTokens :=
  messages.map (fun msg => { msg with tokens := some (jsOrNat msg.tokens (countTokens enc msg.content)) })

/-- The token count `msg.tokens || 0` the trimmer reads back. -/
def msgTok (m : MessageWithTokens) : Nat := jsOrNat m.tokens 0

/-- Sum of `msg.tokens || 0` over a list (the trimmer's `totalTokens`,
src/lib/tokens.ts, lines 144-147, and kept-set running total). -/
def tokSum (l : List MessageWithTokens) : Nat := (l.map msgTok).sum

/-- The trimmer's `totalTokens` over the token-annotated messages. -/
def trimTotalTokens (enc : Encoder) (messages : List MessageWithTokens) : Nat :=
  tokSum (withTokens enc messages)

/-- The backward accumulation loop of the `"recent"` strategy
(src/lib/tokens.ts, lines 155-169), applied to the reversed message list:
returns the kept messages (newest first) and the final running total. -/
def keepRecent (target : Nat) (cur : Nat) :
    List MessageWithTokens → List MessageWithTokens × Nat
  | [] => ([], cur)
  | m :: rest =>
      if cur + msgTok m ≤ target then
        let p := keepRecent target (cur + msgTok m) rest
        (m :: p.1, p.2)
      else ([], cur)

/-- `trimConversation` with the `"recent"` strategy
(src/lib/tokens.ts, lines 134-175).  The source's local constants
`messagesWithTokens` and `totalTokens` are inlined as `withTokens enc
messages` and `tokSum (withTokens enc messages)`. -/
def trimConversationRecent (enc : Encoder) (messages : List MessageWithTokens)
    (targetTokens : Nat) : TrimResult :=
  if messages = [] then ⟨[], 0, 0⟩
  else if tokSum (withTokens enc messages) ≤ targetTokens then ⟨messages, 0, 0⟩
  else
    ⟨(keepRecent targetTokens 0 (withTokens enc messages).reverse).1.reverse,
     messages.length - (keepRecent targetTokens 0 (withTokens enc messages).reverse).1.length,
     tokSum (withTokens enc messages)
       - (keepRecent targetTokens 0 (withTokens enc messages).reverse).2⟩

/-- `trimConversation` (src/lib/tokens.ts, lines 125-179).  For any
strategy other than `"recent"` the source performs the same early
returns and then re-enters itself with strategy `"recent"`
(line 178); the recursive call is modelled by `trimConversationRecent`. -/
def trimConversation (enc : Encoder) (messages : List MessageWithTokens)
    (targetTokens : Nat) : Strategy → TrimResult
  | Strategy.recent => trimConversationRecent enc messages targetTokens
  | Strategy.important =>
      if messages = [] then ⟨[], 0, 0⟩
      else if tokSum (withTokens enc messages) ≤ targetTokens then ⟨messages, 0, 0⟩
      else trimConversationRecent enc messages targetTokens

/-- `getRecommendedTrimTarget` (src/lib/tokens.ts, lines 181-188). -/
def getRecommendedTrimTarget (model : String) : Nat :=
  jsOrNat (CONTEXT_LIMITS model) 200000 * 1 / 2

/-! ## The `ConversationExporter` class (src/lib/export.ts)

The regex global replacements of `compressMessageContent` are embedded as
specialized scanners over `List Char`.  Each scanner mirrors ECMAScript
`String.prototype.replace` with a global regex: positions are tried left to
right, a successful (necessarily non-empty) match emits the replacement and
resumes immediately after the matched text, and a failed attempt emits one
character and advances by one.  Each scanner consumes at least one character
of its input per step, so a fuel argument equal to the input length makes the
recursion structural without changing the computed value. -/

/-- JavaScript `\w` (ASCII word character). -/
def jsIsWord (c : Char) : Bool :=
  ('a' ≤ c && c ≤ 'z') || ('A' ≤ c && c ≤ 'Z') || ('0' ≤ c && c ≤ '9') || c == '_'

/-- JavaScript `\d`. -/
def jsIsDigit (c : Char) : Bool := '0' ≤ c && c ≤ '9'

/-- Characters matched by `[ \t]`. -/
def isSpaceTab (c : Char) : Bool := c == ' ' || c == '\t'

/-- `.replace(/\n\s*\n\s*\n/g, "\n\n")` (export.ts line 291).  A match
starts at a newline whose following whitespace run contains at least two
more newlines; by greediness it extends to the last newline of that run. -/
def collapseNewlinesGo : Nat → List Char → List Char
  | 0, l => l
  | _ + 1, [] => []
  | fuel + 1, c :: rest =>
      if c = '\n' then
        let run := rest.takeWhile jsIsSpace
        if 2 ≤ run.count '\n' then
          let tailAfter := (run.reverse.takeWhile (fun d => d ≠ '\n')).reverse
          '\n' :: '\n' :: collapseNewlinesGo fuel (tailAfter ++ rest.drop run.length)
        else c :: collapseNewlinesGo fuel rest
      else c :: collapseNewlinesGo fuel rest

/-- `.replace(/[ \t]+/g, " ")` (export.ts line 292). -/
def collapseSpacesGo : Nat → List Char → List Char
  | 0, l => l
  | _ + 1, [] => []
  | fuel + 1, c :: rest =>
      if isSpaceTab c then ' ' :: collapseSpacesGo fuel (rest.dropWhile isSpaceTab)
      else c :: collapseSpacesGo fuel rest

/-- `.replace(/\n /g, "\n")` (export.ts line 293). -/
def stripSpaceAfterNewline : List Char → List Char
  | [] => []
  | '\n' :: ' ' :: rest => '\n' :: stripSpaceAfterNewline rest
  | c :: rest => c :: stripSpaceAfterNewline rest

/-- `String.prototype.split("\n")`. -/
def splitNewlines : List Char → List (List Char)
  | [] => [[]]
  | c :: rest =>
      if c = '\n' then [] :: splitNewlines rest
      else
        match splitNewlines rest with
        | [] => [[c]]
        | h :: t => (c :: h) :: t

/-- The code minifier of the code-block replacement (export.ts lines
300-304): split into lines, trim each, drop empty lines, rejoin. -/
def minifyCode (code : List Char) : List Char :=
  List.intercalate ['\n'] (((splitNewlines code).map jsTrimList).filter (fun l => l.length ≠ 0))

/-- Locate the earliest `` ``` `` in the lazy group `([\s\S]*?)`, returning
the code before it and the remaining input after it. -/
def findCloseFence : List Char → Option (List Char × List Char)
  | '`' :: '`' :: '`' :: rest => some ([], rest)
  | [] => none
  | c :: rest =>
      match findCloseFence rest with
      | some (code, after) => some (c :: code, after)
      | none => none

/-- Attempt the code-block pattern `` /```(\w+)?\n([\s\S]*?)```/ `` at the
current position; on success return the replacement text (the fence with the
language tag and the minified code) and the rest of the input. -/
def tryCodeBlock : List Char → Option (List Char × List Char)
  | '`' :: '`' :: '`' :: rest =>
      let lang := rest.takeWhile jsIsWord
      match rest.drop lang.length with
      | '\n' :: body =>
          match findCloseFence body with
          | some (code, after) =>
              some ('`' :: '`' :: '`' :: lang ++ '\n' :: minifyCode code
                      ++ ['`', '`', '`'], after)
          | none => none
      | _ => none
  | _ => none

/-- `` .replace(/```(\w+)?\n([\s\S]*?)```/g, ...) `` (export.ts lines 297-307). -/
def codeBlockPassGo : Nat → List Char → List Char
  | 0, l => l
  | _ + 1, [] => []
  | fuel + 1, c :: rest =>
      match tryCodeBlock (c :: rest) with
      | some (rep, after) => rep ++ codeBlockPassGo fuel after
      | none => c :: codeBlockPassGo fuel rest

/-- `.replace(/^#{1,6}\s+/gm, "#")` (export.ts line 312).  `atStart` records
whether the current position is at the start of the input or right after a
newline of the original text (the multiline `^` anchor). -/
def headerPassGo : Nat → Bool → List Char → List Char
  | 0, _, l => l
  | _ + 1, _, [] => []
  | fuel + 1, atStart, c :: rest =>
      if atStart ∧ c = '#' then
        let hashes := (c :: rest).takeWhile (fun d => d = '#')
        let afterHash := (c :: rest).drop hashes.length
        let ws := afterHash.takeWhile jsIsSpace
        if hashes.length ≤ 6 ∧ ws ≠ [] then
          '#' :: headerPassGo fuel (ws.getLast? = some '\n') (afterHash.drop ws.length)
        else c :: headerPassGo fuel (c = '\n') rest
      else c :: headerPassGo fuel (c = '\n') rest

/-- `.replace(/^\s*[-*+]\s+/gm, "- ")` (export.ts line 314). -/
def bulletPassGo : Nat → Bool → List Char → List Char
  | 0, _, l => l
  | _ + 1, _, [] => []
  | fuel + 1, atStart, c :: rest =>
      let l := c :: rest
      let ws1 := l.takeWhile jsIsSpace
      let afterWs := l.drop ws1.length
      if atStart then
        match afterWs with
        | b :: afterBullet =>
            if b = '-' ∨ b = '*' ∨ b = '+' then
              let ws2 := afterBullet.takeWhile jsIsSpace
              if ws2 ≠ [] then
                '-' :: ' ' :: bulletPassGo fuel (ws2.getLast? = some '\n') (afterBullet.drop ws2.length)
              else c :: bulletPassGo fuel (c = '\n') rest
            else c :: bulletPassGo fuel (c = '\n') rest
        | [] => c :: bulletPassGo fuel (c = '\n') rest
      else c :: bulletPassGo fuel (c = '\n') rest

/-- `.replace(/^\s*\d+\.\s+/gm, "1. ")` (export.ts line 316). -/
def numberPassGo : Nat → Bool → List Char → List Char
  | 0, _, l => l
  | _ + 1, _, [] => []
  | fuel + 1, atStart, c :: rest =>
      let l := c :: rest
      let ws1 := l.takeWhile jsIsSpace
      let afterWs := l.drop ws1.length
      let digits := afterWs.takeWhile jsIsDigit
      if atStart ∧ digits ≠ [] then
        match afterWs.drop digits.length with
        | '.' :: afterDot =>
            let ws2 := afterDot.takeWhile jsIsSpace
            if ws2 ≠ [] then
              '1' :: '.' :: ' ' :: numberPassGo fuel (ws2.getLast? = some '\n') (afterDot.drop ws2.length)
            else c :: numberPassGo fuel (c = '\n') rest
        | _ => c :: numberPassGo fuel (c = '\n') rest
      else c :: numberPassGo fuel (c = '\n') rest

/-- The whitespace-and-code-block pipeline every message goes through
(export.ts lines 289-307): newline collapse, horizontal-whitespace collapse,
space-after-newline strip, trim, then code-block minification. -/
def baseCompressChars (content : List Char) : List Char :=
  let a := collapseNewlinesGo content.length content
  let b := collapseSpacesGo a.length a
  let c := stripSpaceAfterNewline b
  let d := jsTrimList c
  codeBlockPassGo d.length d

/-- The markdown normalization applied to assistant messages only
(export.ts lines 310-317): headers, then bullets, then numbered lists. -/
def markdownNormalizeChars (l : List Char) : List Char :=
  let h := headerPassGo l.length true l
  let b := bulletPassGo h.length true h
  numberPassGo b.length true b

/-- `ConversationExporter.compressMessageContent` (export.ts lines 282-320). -/
def compressMessageContent (content : String) (role : Role) : String :=
  let base := baseCompressChars content.data
  if role = Role.assistant then String.mk (markdownNormalizeChars base)
  else String.mk base

/-- `ExportMessage` (export.ts lines 46-50). -/
structure ExportMessage where
  role : Role
  content : String
  timestamp : Date
deriving DecidableEq, Repr

/-- `ExportConversation` (export.ts lines 52-58). -/
structure ExportConversation where
  id : String
  title : String
  messages : List ExportMessage
  createdAt : Date
  updatedAt : Date
deriving DecidableEq, Repr

/-- `ExportOptions` (export.ts lines 60-66).  Optional fields model the
`?:` fields; `format` is carried but never read by the embedded functions. -/
structure ExportOptions where
  format : String
  includeTimestamps : Option Bool
  includeTokenCounts : Option Bool
  maxTokens : Option Nat
  preserveCodeBlocks : Option Bool
deriving DecidableEq, Repr

/-- The role heading of a Markdown message section (export.ts line 94). -/
def roleLabelMd (r : Role) : String :=
  match r with
  | Role.user => "👤 **You**"
  | Role.assistant => "🤖 **Claude**"

/-- The `forEach` loop of `exportToMarkdown` (export.ts lines 93-108):
one `## role` section per message, separated by `---` rules. -/
def mdSections (enc : Encoder) (its itc : Bool) (len : Nat) :
    Nat → List ExportMessage → String
  | _, [] => ""
  | i, m :: rest =>
      "## " ++ roleLabelMd m.role
        ++ (if its then " *(" ++ m.timestamp.localeTime ++ ")*" else "")
        ++ (if itc then " *[" ++ toString (countTokens enc m.content) ++ " tokens]*" else "")
        ++ "\n\n" ++ m.content ++ "\n\n"
        ++ (if i < len - 1 then "---\n\n" else "")
        ++ mdSections enc its itc len (i + 1) rest

/-- `ConversationExporter.exportToMarkdown` (export.ts lines 69-111).
`locStr` models the locale-dependent `Number.prototype.toLocaleString`.
The destructured defaults `includeTimestamps = true`,
`includeTokenCounts = false` (line 73) appear as `Option.getD`. -/
def exportToMarkdown (enc : Encoder) (locStr : Nat → String)
    (conversation : ExportConversation) (options : ExportOptions) : String :=
  "# " ++ conversation.title ++ "\n\n"
    ++ "**Created:** " ++ conversation.createdAt.localeDate ++ "\n"
    ++ "**Last Updated:** " ++ conversation.updatedAt.localeDate ++ "\n"
    ++ "**Messages:** " ++ toString conversation.messages.length ++ "\n\n"
    ++ (if options.includeTokenCounts.getD false then
          "**Total Tokens:** "
            ++ locStr (conversation.messages.foldl (fun s m => s + countTokens enc m.content) 0)
            ++ "\n\n"
        else "")
    ++ "---\n\n"
    ++ mdSections enc (options.includeTimestamps.getD true)
        (options.includeTokenCounts.getD false)
        conversation.messages.length 0 conversation.messages

/-- The lowercase hex digit used by `JSON.stringify`'s `\u00XX` escapes. -/
def hexDigitChar (n : Nat) : Char :=
  if n < 10 then Char.ofNat ('0'.toNat + n) else Char.ofNat ('a'.toNat + (n - 10))

/-- The escape `JSON.stringify` applies to one character of a string value
(ECMA-262 `QuoteJSONString`). -/
def jsonEscapeChar (c : Char) : List Char :=
  if c = '"' then ['\\', '"']
  else if c = '\\' then ['\\', '\\']
  else if c = '\x08' then ['\\', 'b']
  else if c = '\x0c' then ['\\', 'f']
  else if c = '\n' then ['\\', 'n']
  else if c = '\r' then ['\\', 'r']
  else if c = '\t' then ['\\', 't']
  else if c.toNat < 32 then
    ['\\', 'u', '0', '0', hexDigitChar (c.toNat / 16), hexDigitChar (c.toNat % 16)]
  else [c]

/-- `JSON.stringify`'s serialization of a string body. -/
def jsonEscape : List Char → List Char
  | [] => []
  | c :: rest => jsonEscapeChar c ++ jsonEscape rest

/-- A JSON string literal: quotes around the escaped body. -/
def jsonQuote (s : String) : String :=
  "\"" ++ String.mk (jsonEscape s.data) ++ "\""

/-- The serialized `role` field value. -/
def roleString : Role → String
  | Role.user => "user"
  | Role.assistant => "assistant"

/-- One element of the `messages` array of `exportToJSON` (export.ts lines
131-140), rendered as `JSON.stringify(·, null, 2)` renders it at depth 2;
`undefined`-valued keys (`timestamp`, `tokens` when disabled) are omitted. -/
def jsonMessageItem (enc : Encoder) (its itc : Bool) (m : ExportMessage) : String :=
  "    \x7b\n      \"role\": " ++ jsonQuote (roleString m.role)
    ++ ",\n      \"content\": " ++ jsonQuote m.content
    ++ (if its then ",\n      \"timestamp\": " ++ jsonQuote m.timestamp.iso else "")
    ++ (if itc then ",\n      \"tokens\": " ++ toString (countTokens enc m.content) else "")
    ++ "\n    \x7d"

/-- The `,\n`-joined elements of the `messages` array (the separator
`JSON.stringify` emits between adjacent members at indent 2). -/
def jsonItemsJoin (enc : Encoder) (its itc : Bool) : List ExportMessage → String
  | [] => ""
  | [m] => jsonMessageItem enc its itc m
  | m :: rest => jsonMessageItem enc its itc m ++ ",\n" ++ jsonItemsJoin enc its itc rest

/-- The `messages` array of `exportToJSON`, rendered at depth 1. -/
def jsonMessagesArray (enc : Encoder) (its itc : Bool) (msgs : List ExportMessage) : String :=
  if msgs = [] then "[]"
  else "[\n" ++ jsonItemsJoin enc its itc msgs ++ "\n  ]"

/-- `ConversationExporter.exportToJSON` (export.ts lines 113-146): the text
`JSON.stringify(exportData, null, 2)` produces for the `exportData` object
built there.  `now` models `new Date().toISOString()`; a key whose value is
`undefined` (`totalTokens`, per-message `timestamp`/`tokens` when the
corresponding option is not truthy) is omitted by `JSON.stringify`. -/
def exportToJSON (enc : Encoder) (now : String)
    (conversation : ExportConversation) (options : ExportOptions) : String :=
  "\x7b\n  \"metadata\": \x7b\n    \"title\": " ++ jsonQuote conversation.title
    ++ ",\n    \"id\": " ++ jsonQuote conversation.id
    ++ ",\n    \"createdAt\": " ++ jsonQuote conversation.createdAt.iso
    ++ ",\n    \"updatedAt\": " ++ jsonQuote conversation.updatedAt.iso
    ++ ",\n    \"messageCount\": " ++ toString conversation.messages.length
    ++ (if options.includeTokenCounts == some true then
          ",\n    \"totalTokens\": "
            ++ toString (conversation.messages.foldl (fun s m => s + countTokens enc m.content) 0)
        else "")
    ++ "\n  \x7d,\n  \"messages\": "
    ++ jsonMessagesArray enc (options.includeTimestamps == some true)
        (options.includeTokenCounts == some true) conversation.messages
    ++ ",\n  \"exportedAt\": " ++ jsonQuote now
    ++ ",\n  \"format\": \"claude-api-chat-export-v1\"\n\x7d"

/-! ## Concrete instances used by scenarios, witnesses and counterexamples -/

/-- A tokenizer that always succeeds with zero tokens. -/
def encConst : Encoder := fun _ => some []

/-- A tokenizer that yields one token per character. -/
def encPerChar : Encoder := fun s => some (s.data.map fun _ => 0)

/-- A fixed timestamp. -/
def epochDate : Date := ⟨"1970-01-01T00:00:00.000Z", "1/1/1970", "12:00:00 AM"⟩

/-- One of the ten 100-token messages of Scenario C. -/
def scenarioCMsg (i : Nat) : MessageWithTokens :=
  ⟨toString i, Role.user, "m", epochDate, some 100⟩

/-- Scenario C of the spec: ten messages of 100 tokens each. -/
def scenarioC : List MessageWithTokens := (List.range 10).map scenarioCMsg

/-- A message with no cached token count and an 8-character body. -/
def cachelessLong : MessageWithTokens := ⟨"a", Role.user, "aaaaaaaa", epochDate, none⟩

/-- A message with no cached token count and a 2-character body. -/
def cachelessShort : MessageWithTokens := ⟨"b", Role.user, "bb", epochDate, none⟩

/-- A two-message conversation whose messages carry no cached token counts. -/
def suffixCexList : List MessageWithTokens := [cachelessLong, cachelessShort]

/-- A message whose cached token count (100) disagrees with its content (4 chars). -/
def cachedMsg : MessageWithTokens := ⟨"1", Role.user, "xxxx", epochDate, some 100⟩

/-- The same message with the cached token count absent. -/
def uncachedMsg : MessageWithTokens := ⟨"1", Role.user, "xxxx", epochDate, none⟩

/-- A single small cached message (total 5 tokens). -/
def smallMsgs : List MessageWithTokens := [⟨"1", Role.user, "m", epochDate, some 5⟩]

/-- An export message whose content contains a double quote. -/
def quoteMsg : ExportMessage := ⟨Role.user, "He said \"x\"", epochDate⟩

/-- A one-message conversation containing `quoteMsg`. -/
def quoteConv : ExportConversation := ⟨"i", "t", [quoteMsg], epochDate, epochDate⟩

/-- An export message whose content needs no JSON escaping. -/
def plainMsg : ExportMessage := ⟨Role.user, "hi", epochDate⟩

/-- A one-message conversation containing `plainMsg`. -/
def plainConv : ExportConversation := ⟨"i", "t", [plainMsg], epochDate, epochDate⟩

/-- Export options with every optional field absent. -/
def bareOptions (format : String) : ExportOptions := ⟨format, none, none, none, none⟩

/-- A character `JSON.stringify` would escape inside a string value:
a double quote, a backslash, or a control character below `U+0020`. -/
def jsonNeedsEscape (c : Char) : Bool := c == '"' || c == '\\' || c.toNat < 32

/-- The projection of a message that forgets the lazily-computed `tokens`
field (used to compare message lists up to token annotation). -/
def eraseTokens (m : MessageWithTokens) : MessageWithTokens := { m with tokens := none }

/-! ## Helper lemmas -/

lemma ceil_div_four (n : ℕ) : ⌈(n : ℚ) / 4⌉₊ = (n + 3) / 4 := by
  apply le_antisymm
  · rw [Nat.ceil_le, div_le_iff₀ (by norm_num : (0 : ℚ) < 4)]
    have h : n ≤ (n + 3) / 4 * 4 := by omega
    exact_mod_cast h
  · rcases Nat.eq_zero_or_pos ((n + 3) / 4) with h | h
    · simp [h]
    · have h2 : (n + 3) / 4 - 1 < ⌈(n : ℚ) / 4⌉₊ := by
        rw [Nat.lt_ceil, lt_div_iff₀ (by norm_num : (0 : ℚ) < 4)]
        have h3 : ((n + 3) / 4 - 1) * 4 < n := by omega
        exact_mod_cast h3
      omega

lemma jsTrimList_eq_nil_iff (l : List Char) :
    jsTrimList l = [] ↔ ∀ c ∈ l, jsIsSpace c := by
  unfold jsTrimList
  rw [List.reverse_eq_nil_iff, List.dropWhile_eq_nil_iff]
  constructor
  · intro h c hc
    have hsplit := List.takeWhile_append_dropWhile (p := jsIsSpace) (l := l)
    rw [← hsplit] at hc
    rcases List.mem_append.mp hc with hc | hc
    · exact List.mem_takeWhile_imp hc
    · exact h c (List.mem_reverse.mpr hc)
  · intro h c hc
    refine h c ?_
    exact (List.dropWhile_sublist jsIsSpace).subset (List.mem_reverse.mp hc)

lemma foldl_add_eq {α : Type} (f : α → Nat) (l : List α) (a : Nat) :
    l.foldl (fun tot m => tot + f m) a = a + (l.map f).sum := by
  induction l generalizing a with
  | nil => simp
  | cons m rest ih => simp [ih]; omega

/-! ## C6: the `countTokens` contract -/

/-- C6: `countTokens` always returns a non-negative integer; for empty or
whitespace-only input it returns 0; and when the tokenizer raises (modelled
by `enc text = none`) it falls back to `ceil(length_in_characters / 4)`,
a total computation that is never surfaced as an error. -/
theorem countTokens_contract (enc : Encoder) (text : String) :
    0 ≤ countTokens enc text
    ∧ ((∀ c ∈ text.data, jsIsSpace c) → countTokens enc text = 0)
    ∧ ((¬ ∀ c ∈ text.data, jsIsSpace c) → enc text = none →
        countTokens enc text = ⌈(text.data.length : ℚ) / 4⌉₊) := by
  refine ⟨Nat.zero_le _, ?_, ?_⟩
  · intro h
    unfold countTokens
    rw [if_pos (Or.inr ((jsTrimList_eq_nil_iff text.data).mpr h))]
  · intro h henc
    have hne : ¬ (text.data = [] ∨ jsTrimList text.data = []) := by
      rintro (h1 | h1)
      · exact h (by simp [h1])
      · exact h ((jsTrimList_eq_nil_iff text.data).mp h1)
    unfold countTokens
    rw [if_neg hne, henc, ceil_div_four]

/-- Witness for C6 at the concrete input `"hello"` with a throwing
tokenizer: the fallback yields `ceil(5/4) = 2`. -/
theorem countTokens_contract_witness :
    (¬ ∀ c ∈ ("hello" : String).data, jsIsSpace c)
    ∧ (fun _ => (none : Option (List Nat))) "hello" = none
    ∧ countTokens (fun _ => none) "hello" = ⌈(("hello" : String).data.length : ℚ) / 4⌉₊ :=
  ⟨by decide, rfl, (countTokens_contract (fun _ => none) "hello").2.2 (by decide) rfl⟩

/-! ## C7: the `calculateCost` contract -/

/-- C7: an unknown model yields cost 0 without raising; a known model yields
`tokens * (price-per-million / 1,000,000)`; and cost is linear in the token
count. -/
theorem calculateCost_spec (t : ℚ) (model : String) (type : CostType) :
    (CLAUDE_PRICING model = none → calculateCost t model type = 0)
    ∧ (∀ p, CLAUDE_PRICING model = some p →
        calculateCost t model type = t * (priceFor type p / 1000000))
    ∧ calculateCost (2 * t) model type = 2 * calculateCost t model type := by
  refine ⟨?_, ?_, ?_⟩
  · intro h; simp [calculateCost, h]
  · intro p hp; simp [calculateCost, hp]
  · cases h : CLAUDE_PRICING model <;> simp [calculateCost, h] <;> ring

/-- Witness for C7: a model absent from the pricing table costs 0, a known
model follows the price formula, and linearity holds at a concrete input. -/
theorem calculateCost_spec_witness :
    (CLAUDE_PRICING "gpt-4" = none ∧ calculateCost 10 "gpt-4" CostType.input = 0)
    ∧ (CLAUDE_PRICING "claude-3-opus-20240229" = some ⟨15, 75⟩
        ∧ calculateCost 10 "claude-3-opus-20240229" CostType.output
            = 10 * (priceFor CostType.output ⟨15, 75⟩ / 1000000))
    ∧ calculateCost (2 * 10) "claude-3-opus-20240229" CostType.output
        = 2 * calculateCost 10 "claude-3-opus-20240229" CostType.output :=
  ⟨⟨rfl, (calculateCost_spec 10 "gpt-4" CostType.input).1 rfl⟩,
   ⟨rfl, (calculateCost_spec 10 "claude-3-opus-20240229" CostType.output).2.1 ⟨15, 75⟩ rfl⟩,
   (calculateCost_spec 10 "claude-3-opus-20240229" CostType.output).2.2⟩

/-! ## C4: the `getContextStatus` contract -/

lemma tier_eq_safe_iff (p : ℚ) :
    (if p ≥ 19/20 then Tier.emergency
     else if p ≥ 17/20 then Tier.critical
     else if p ≥ 7/10 then Tier.warning
     else Tier.safe) = Tier.safe ↔ p < 7/10 := by
  split_ifs with h1 h2 h3 <;> simp <;> try push_neg
  all_goals try constructor
  all_goals try intro h
  all_goals linarith

lemma tier_eq_warning_iff (p : ℚ) :
    (if p ≥ 19/20 then Tier.emergency
     else if p ≥ 17/20 then Tier.critical
     else if p ≥ 7/10 then Tier.warning
     else Tier.safe) = Tier.warning ↔ 7/10 ≤ p ∧ p < 17/20 := by
  split_ifs with h1 h2 h3 <;> simp <;> try push_neg
  all_goals try constructor
  all_goals try intro h
  all_goals linarith

lemma tier_eq_critical_iff (p : ℚ) :
    (if p ≥ 19/20 then Tier.emergency
     else if p ≥ 17/20 then Tier.critical
     else if p ≥ 7/10 then Tier.warning
     else Tier.safe) = Tier.critical ↔ 17/20 ≤ p ∧ p < 19/20 := by
  split_ifs with h1 h2 h3 <;> simp <;> try push_neg
  all_goals try constructor
  all_goals try intro h
  all_goals linarith

lemma tier_eq_emergency_iff (p : ℚ) :
    (if p ≥ 19/20 then Tier.emergency
     else if p ≥ 17/20 then Tier.critical
     else if p ≥ 7/10 then Tier.warning
     else Tier.safe) = Tier.emergency ↔ 19/20 ≤ p := by
  split_ifs with h1 h2 h3 <;> simp <;> try push_neg
  all_goals try constructor
  all_goals try intro h
  all_goals linarith

/-- C4: `getContextStatus` sums `countTokens` over the message bodies,
takes the model's configured context window (200,000 for an unrecognized
model), divides, and classifies with the fixed thresholds
0.70 / 0.85 / 0.95. -/
theorem getContextStatus_spec (enc : Encoder) (msgs : List MessageWithTokens)
    (model : String) :
    (getContextStatus enc msgs model).totalTokens
        = (msgs.map (fun m => countTokens enc m.content)).sum
    ∧ (getContextStatus enc msgs model).limit
        = (match CONTEXT_LIMITS model with | some v => v | none => 200000)
    ∧ (getContextStatus enc msgs model).percentage
        = ((getContextStatus enc msgs model).totalTokens : ℚ)
            / ((getContextStatus enc msgs model).limit : ℚ)
    ∧ ((getContextStatus enc msgs model).status = Tier.safe
        ↔ (getContextStatus enc msgs model).percentage < 7/10)
    ∧ ((getContextStatus enc msgs model).status = Tier.warning
        ↔ 7/10 ≤ (getContextStatus enc msgs model).percentage
            ∧ (getContextStatus enc msgs model).percentage < 17/20)
    ∧ ((getContextStatus enc msgs model).status = Tier.critical
        ↔ 17/20 ≤ (getContextStatus enc msgs model).percentage
            ∧ (getContextStatus enc msgs model).percentage < 19/20)
    ∧ ((getContextStatus enc msgs model).status = Tier.emergency
        ↔ 19/20 ≤ (getContextStatus enc msgs model).percentage) := by
  have hlim : jsOrNat (CONTEXT_LIMITS model) 200000
      = (match CONTEXT_LIMITS model with | some v => v | none => 200000) := by
    unfold CONTEXT_LIMITS jsOrNat
    split_ifs <;> rfl
  have hstatus : (getContextStatus enc msgs model).status
      = (if (getContextStatus enc msgs model).percentage ≥ 19/20 then Tier.emergency
         else if (getContextStatus enc msgs model).percentage ≥ 17/20 then Tier.critical
         else if (getContextStatus enc msgs model).percentage ≥ 7/10 then Tier.warning
         else Tier.safe) := rfl
  refine ⟨?_, hlim, rfl, ?_, ?_, ?_, ?_⟩
  · show getTotalConversationTokens enc msgs = _
    unfold getTotalConversationTokens
    rw [foldl_add_eq]
    omega
  · rw [hstatus]; exact tier_eq_safe_iff _
  · rw [hstatus]; exact tier_eq_warning_iff _
  · rw [hstatus]; exact tier_eq_critical_iff _
  · rw [hstatus]; exact tier_eq_emergency_iff _

/-! ## The trimmer: shared lemmas -/

lemma tokSum_cons (m : MessageWithTokens) (l : List MessageWithTokens) :
    tokSum (m :: l) = msgTok m + tokSum l := by
  simp [tokSum]

lemma tokSum_append (l₁ l₂ : List MessageWithTokens) :
    tokSum (l₁ ++ l₂) = tokSum l₁ + tokSum l₂ := by
  simp [tokSum]

lemma tokSum_reverse (l : List MessageWithTokens) : tokSum l.reverse = tokSum l := by
  simp [tokSum, List.sum_reverse]

lemma tokSum_drop_le (l : List MessageWithTokens) {a b : Nat} (hab : a ≤ b) :
    tokSum (l.drop b) ≤ tokSum (l.drop a) := by
  have h1 : (l.drop a).drop (b - a) = l.drop b := by
    rw [List.drop_drop]
    congr 1
    omega
  have h2 : tokSum (l.drop a)
      = tokSum ((l.drop a).take (b - a)) + tokSum ((l.drop a).drop (b - a)) := by
    rw [← tokSum_append, List.take_append_drop]
  rw [h1] at h2
  omega

lemma keepRecent_spec (target : Nat) (rl : List MessageWithTokens) :
    ∀ cur : Nat,
      ∃ j, j ≤ rl.length
        ∧ (keepRecent target cur rl).1 = rl.take j
        ∧ (keepRecent target cur rl).2 = cur + tokSum (rl.take j)
        ∧ (cur ≤ target → cur + tokSum (rl.take j) ≤ target)
        ∧ (j < rl.length → target < cur + tokSum (rl.take (j + 1))) := by
  induction rl with
  | nil =>
      intro cur
      exact ⟨0, by simp [keepRecent, tokSum]⟩
  | cons m rest ih =>
      intro cur
      by_cases h : cur + msgTok m ≤ target
      · obtain ⟨j, hj, h1, h2, h3, h4⟩ := ih (cur + msgTok m)
        refine ⟨j + 1, by simpa using hj, ?_, ?_, ?_, ?_⟩
        · show (keepRecent target cur (m :: rest)).1 = _
          simp only [keepRecent, if_pos h, List.take_succ_cons]
          rw [h1]
        · show (keepRecent target cur (m :: rest)).2 = _
          simp only [keepRecent, if_pos h, List.take_succ_cons, tokSum_cons]
          rw [h2]
          omega
        · intro _
          have hb := h3 h
          simp only [List.take_succ_cons, tokSum_cons]
          omega
        · intro hlt
          have hs := h4 (by simpa using hlt)
          simp only [List.take_succ_cons, tokSum_cons]
          omega
      · refine ⟨0, Nat.zero_le _, ?_, ?_, ?_, ?_⟩
        · simp [keepRecent, h]
        · simp [keepRecent, h, tokSum]
        · intro hc
          simpa [tokSum] using hc
        · intro _
          simp only [List.take_succ_cons, List.take_zero, tokSum_cons]
          have hz : tokSum ([] : List MessageWithTokens) = 0 := rfl
          omega

lemma withTokens_length (enc : Encoder) (msgs : List MessageWithTokens) :
    (withTokens enc msgs).length = msgs.length := by
  simp [withTokens]

lemma trimRecent_spec (enc : Encoder) (msgs : List MessageWithTokens) (target : Nat)
    (h : target < trimTotalTokens enc msgs) :
    ∃ k, k ≤ msgs.length
      ∧ (trimConversationRecent enc msgs target).trimmedMessages
          = (withTokens enc msgs).drop k
      ∧ tokSum ((withTokens enc msgs).drop k) ≤ target
      ∧ (∀ j, j < k → target < tokSum ((withTokens enc msgs).drop j))
      ∧ (trimConversationRecent enc msgs target).removedCount = k
      ∧ (trimConversationRecent enc msgs target).tokensSaved
          = trimTotalTokens enc msgs - tokSum ((withTokens enc msgs).drop k) := by
  have htot : target < tokSum (withTokens enc msgs) := h
  have hne : msgs ≠ [] := by
    intro h0
    subst h0
    simp [trimTotalTokens, withTokens, tokSum] at h
  have hnotle : ¬ tokSum (withTokens enc msgs) ≤ target := by omega
  have hres : trimConversationRecent enc msgs target
      = ⟨(keepRecent target 0 (withTokens enc msgs).reverse).1.reverse,
         msgs.length - (keepRecent target 0 (withTokens enc msgs).reverse).1.length,
         tokSum (withTokens enc msgs)
           - (keepRecent target 0 (withTokens enc msgs).reverse).2⟩ := by
    unfold trimConversationRecent
    rw [if_neg hne, if_neg hnotle]
  obtain ⟨j, hj, h1, h2, h3, h4⟩ := keepRecent_spec target (withTokens enc msgs).reverse 0
  rw [List.length_reverse] at hj
  have hlen := withTokens_length enc msgs
  have htake : (withTokens enc msgs).reverse.take j
      = ((withTokens enc msgs).drop ((withTokens enc msgs).length - j)).reverse :=
    List.take_reverse ..
  have hsum : tokSum ((withTokens enc msgs).reverse.take j)
      = tokSum ((withTokens enc msgs).drop ((withTokens enc msgs).length - j)) := by
    rw [htake, tokSum_reverse]
  refine ⟨(withTokens enc msgs).length - j, by omega, ?_, ?_, ?_, ?_, ?_⟩
  · rw [hres]
    show ((keepRecent target 0 (withTokens enc msgs).reverse).1).reverse = _
    rw [h1, htake, List.reverse_reverse]
  · have hb := h3 (Nat.zero_le target)
    rw [hsum] at hb
    omega
  · intro j' hj'
    have hkpos : 0 < (withTokens enc msgs).length - j := by omega
    have hjlt : j < (withTokens enc msgs).reverse.length := by
      rw [List.length_reverse]; omega
    have hstep := h4 hjlt
    have htake1 : (withTokens enc msgs).reverse.take (j + 1)
        = ((withTokens enc msgs).drop ((withTokens enc msgs).length - (j + 1))).reverse :=
      List.take_reverse ..
    have hstep2 : target
        < tokSum ((withTokens enc msgs).drop ((withTokens enc msgs).length - j - 1)) := by
      rw [htake1, tokSum_reverse] at hstep
      have heq : (withTokens enc msgs).length - (j + 1)
          = (withTokens enc msgs).length - j - 1 := by omega
      rw [heq] at hstep
      omega
    have hmono := tokSum_drop_le (withTokens enc msgs)
      (a := j') (b := (withTokens enc msgs).length - j - 1) (by omega)
    omega
  · rw [hres]
    show msgs.length - ((keepRecent target 0 (withTokens enc msgs).reverse).1).length = _
    rw [h1, List.length_take]
    rw [List.length_reverse]
    omega
  · rw [hres]
    show tokSum (withTokens enc msgs)
        - (keepRecent target 0 (withTokens enc msgs).reverse).2 = _
    rw [h2, ← hsum]
    have hTT : trimTotalTokens enc msgs = tokSum (withTokens enc msgs) := rfl
    omega

lemma trim_important_eq_recent (enc : Encoder) (msgs : List MessageWithTokens)
    (target : Nat) :
    trimConversation enc msgs target Strategy.important
      = trimConversation enc msgs target Strategy.recent := by
  show (if msgs = [] then (⟨[], 0, 0⟩ : TrimResult)
        else if tokSum (withTokens enc msgs) ≤ target then ⟨msgs, 0, 0⟩
        else trimConversationRecent enc msgs target)
      = trimConversationRecent enc msgs target
  by_cases hne : msgs = []
  · subst hne
    rfl
  · rw [if_neg hne]
    by_cases hle : tokSum (withTokens enc msgs) ≤ target
    · rw [if_pos hle]
      unfold trimConversationRecent
      rw [if_neg hne, if_pos hle]
    · rw [if_neg hle]

lemma trimRecent_single_exceeds (enc : Encoder) (msgs : List MessageWithTokens)
    (target : Nat) (m : MessageWithTokens)
    (hm : (withTokens enc msgs).getLast? = some m) (hbig : target < msgTok m) :
    (trimConversationRecent enc msgs target).trimmedMessages = [] := by
  have hmem : m ∈ withTokens enc msgs := List.mem_of_mem_getLast? hm
  have hne : msgs ≠ [] := by
    intro h0
    subst h0
    simp [withTokens] at hm
  have hmt : msgTok m ≤ tokSum (withTokens enc msgs) :=
    List.single_le_sum (fun x _ => Nat.zero_le x) (msgTok m)
      (List.mem_map_of_mem msgTok hmem)
  have htot : ¬ tokSum (withTokens enc msgs) ≤ target := by omega
  have hhead : (withTokens enc msgs).reverse.head? = some m := by
    rw [List.head?_reverse]
    exact hm
  rcases hrev : (withTokens enc msgs).reverse with _ | ⟨a, as⟩
  · rw [hrev] at hhead
    simp at hhead
  · rw [hrev] at hhead
    simp only [List.head?_cons, Option.some.injEq] at hhead
    subst hhead
    unfold trimConversationRecent
    rw [if_neg hne, if_neg htot]
    show ((keepRecent target 0 ((withTokens enc msgs).reverse)).1).reverse = []
    rw [hrev]
    unfold keepRecent
    rw [if_neg (by omega : ¬ 0 + msgTok a ≤ target)]
    rfl

/-! ## C1: the backward scan of the `"recent"` strategy -/

/-- C1: when the total exceeds the budget, the `"recent"` strategy keeps
exactly the maximal suffix whose token sum fits (every strictly longer
suffix overshoots — the scan stops at the first message whose inclusion
would exceed the budget, dropping it and everything older); if even the
newest message exceeds the budget the kept set is empty; and on ten
100-token messages with target 350 it keeps the last three messages with
`removedCount = 7` and `tokensSaved = 700`. -/
theorem trimConversation_recent_backward_scan :
    (∀ (enc : Encoder) (msgs : List MessageWithTokens) (target : Nat),
      target < trimTotalTokens enc msgs →
      (∃ k, k ≤ msgs.length
        ∧ (trimConversation enc msgs target Strategy.recent).trimmedMessages
            = (withTokens enc msgs).drop k
        ∧ tokSum ((withTokens enc msgs).drop k) ≤ target
        ∧ (∀ j, j < k → target < tokSum ((withTokens enc msgs).drop j))
        ∧ (trimConversation enc msgs target Strategy.recent).removedCount = k
        ∧ (trimConversation enc msgs target Strategy.recent).tokensSaved
            = trimTotalTokens enc msgs - tokSum ((withTokens enc msgs).drop k))
      ∧ (∀ m, (withTokens enc msgs).getLast? = some m → target < msgTok m →
          (trimConversation enc msgs target Strategy.recent).trimmedMessages = []))
    ∧ trimConversation encConst scenarioC 350 Strategy.recent
        = ⟨[scenarioCMsg 7, scenarioCMsg 8, scenarioCMsg 9], 7, 700⟩ := by
  constructor
  · intro enc msgs target h
    exact ⟨trimRecent_spec enc msgs target h,
           fun m hm hbig => trimRecent_single_exceeds enc msgs target m hm hbig⟩
  · decide

/-- Witness for C1: the quantified part applied to Scenario C (ten
100-token messages, target 350). -/
theorem trimConversation_recent_backward_scan_witness :
    350 < trimTotalTokens encConst scenarioC
    ∧ ((∃ k, k ≤ scenarioC.length
        ∧ (trimConversation encConst scenarioC 350 Strategy.recent).trimmedMessages
            = (withTokens encConst scenarioC).drop k
        ∧ tokSum ((withTokens encConst scenarioC).drop k) ≤ 350
        ∧ (∀ j, j < k → 350 < tokSum ((withTokens encConst scenarioC).drop j))
        ∧ (trimConversation encConst scenarioC 350 Strategy.recent).removedCount = k
        ∧ (trimConversation encConst scenarioC 350 Strategy.recent).tokensSaved
            = trimTotalTokens encConst scenarioC
                - tokSum ((withTokens encConst scenarioC).drop k))
      ∧ (∀ m, (withTokens encConst scenarioC).getLast? = some m → 350 < msgTok m →
          (trimConversation encConst scenarioC 350 Strategy.recent).trimmedMessages = [])) :=
  ⟨by decide, trimConversation_recent_backward_scan.1 encConst scenarioC 350 (by decide)⟩

/-! ## C8: a conversation within budget is returned unchanged -/

/-- C8: when the trimmer's total token count is at most the target, the
input list is returned as-is with `removedCount = 0` and `tokensSaved = 0`. -/
theorem trimConversation_noop_within_budget (enc : Encoder)
    (msgs : List MessageWithTokens) (target : Nat) (strategy : Strategy)
    (h : trimTotalTokens enc msgs ≤ target) :
    trimConversation enc msgs target strategy = ⟨msgs, 0, 0⟩ := by
  have h' : tokSum (withTokens enc msgs) ≤ target := h
  have hrec : trimConversationRecent enc msgs target = ⟨msgs, 0, 0⟩ := by
    by_cases hne : msgs = []
    · subst hne
      rfl
    · unfold trimConversationRecent
      rw [if_neg hne, if_pos h']
  cases strategy with
  | recent => exact hrec
  | important =>
      show (if msgs = [] then (⟨[], 0, 0⟩ : TrimResult)
            else if tokSum (withTokens enc msgs) ≤ target then ⟨msgs, 0, 0⟩
            else trimConversationRecent enc msgs target) = _
      by_cases hne : msgs = []
      · subst hne
        rfl
      · rw [if_neg hne, if_pos h']

/-- Witness for C8 at a one-message conversation of 5 cached tokens and
target 10. -/
theorem trimConversation_noop_within_budget_witness :
    trimTotalTokens encConst smallMsgs ≤ 10
    ∧ trimConversation encConst smallMsgs 10 Strategy.recent = ⟨smallMsgs, 0, 0⟩ :=
  ⟨by decide,
   trimConversation_noop_within_budget encConst smallMsgs 10 Strategy.recent (by decide)⟩

/-! ## C9: the `"important"` strategy falls through to `"recent"` -/

/-- C9: the strategy argument never changes the trimmer's output — the
`"important"` strategy produces exactly the `"recent"` result. -/
theorem trimConversation_strategy_agnostic :
    ∀ (enc : Encoder) (msgs : List MessageWithTokens) (target : Nat),
      trimConversation enc msgs target Strategy.important
        = trimConversation enc msgs target Strategy.recent :=
  trim_important_eq_recent

/-! ## C2: the trimmed list is a suffix of the input -/

lemma eraseTokens_withTokens (enc : Encoder) (msgs : List MessageWithTokens) :
    (withTokens enc msgs).map eraseTokens = msgs.map eraseTokens := by
  rw [withTokens, List.map_map]
  rfl

/-- Counterexample to C2 as stated: the trimmer fills in the `tokens`
field of kept messages, so when a kept message had no cached count the
returned records differ from the input records and the trimmed list is not
literally a suffix of the input list. -/
theorem trimConversation_suffix_cex :
    ¬ ((trimConversation encPerChar suffixCexList 5 Strategy.recent).trimmedMessages
        <:+ suffixCexList) := by decide

/-- C2 (amended): up to the lazily-filled `tokens` annotation, the trimmed
list is always a contiguous suffix of the input in original order — mapping
both lists through erasure of the `tokens` field yields a list suffix. -/
theorem trimConversation_trimmed_suffix (enc : Encoder)
    (msgs : List MessageWithTokens) (target : Nat) (strategy : Strategy) :
    ((trimConversation enc msgs target strategy).trimmedMessages.map eraseTokens)
      <:+ (msgs.map eraseTokens) := by
  have hrec : ((trimConversationRecent enc msgs target).trimmedMessages.map eraseTokens)
      <:+ (msgs.map eraseTokens) := by
    by_cases hne : msgs = []
    · subst hne
      simp [trimConversationRecent]
    · by_cases hle : tokSum (withTokens enc msgs) ≤ target
      · unfold trimConversationRecent
        rw [if_neg hne, if_pos hle]
      · have h : target < trimTotalTokens enc msgs := by
          have hTT : trimTotalTokens enc msgs = tokSum (withTokens enc msgs) := rfl
          omega
        obtain ⟨k, _, h1, _, _, _, _⟩ := trimRecent_spec enc msgs target h
        rw [h1, List.map_drop, eraseTokens_withTokens]
        exact List.drop_suffix k _
  cases strategy with
  | recent => exact hrec
  | important =>
      rw [trim_important_eq_recent]
      exact hrec

/-! ## C10: `getContextStatus` never reads the cached `tokens` field -/

/-- C10: the context status depends only on the message contents and the
model — two lists with the same content sequence but different cached
`tokens` values classify identically — while `trimConversation` does read
a non-zero cached `tokens` field, witnessed by two one-message lists with
equal contents and different trim results. -/
theorem getContextStatus_ignores_cached_tokens :
    (∀ (enc : Encoder) (model : String) (M M' : List MessageWithTokens),
        M.map (fun m => m.content) = M'.map (fun m => m.content) →
        getContextStatus enc M model = getContextStatus enc M' model)
    ∧ ([cachedMsg].map (fun m => m.content) = [uncachedMsg].map (fun m => m.content)
        ∧ trimConversation encPerChar [cachedMsg] 50 Strategy.recent
            ≠ trimConversation encPerChar [uncachedMsg] 50 Strategy.recent) := by
  constructor
  · intro enc model M M' hMM
    have hmap : M.map (fun m => countTokens enc m.content)
        = M'.map (fun m => countTokens enc m.content) := by
      have hc := congrArg (List.map (countTokens enc)) hMM
      simpa [List.map_map, Function.comp] using hc
    have htot : getTotalConversationTokens enc M = getTotalConversationTokens enc M' := by
      unfold getTotalConversationTokens
      rw [foldl_add_eq, foldl_add_eq, hmap]
    simp only [getContextStatus, htot]
  · exact ⟨by decide, by decide⟩

/-- Witness for C10: the quantified part applied to the two one-message
lists that differ only in the cached `tokens` field. -/
theorem getContextStatus_ignores_cached_tokens_witness :
    [cachedMsg].map (fun m => m.content) = [uncachedMsg].map (fun m => m.content)
    ∧ getContextStatus encPerChar [cachedMsg] "claude-3-5-sonnet-20241022"
        = getContextStatus encPerChar [uncachedMsg] "claude-3-5-sonnet-20241022" :=
  ⟨by decide,
   getContextStatus_ignores_cached_tokens.1 encPerChar "claude-3-5-sonnet-20241022"
     [cachedMsg] [uncachedMsg] (by decide)⟩

/-! ## C3: per-message content compression of the compact exporter -/

/-- Counterexample to C3 as stated: the markdown normalizations are applied
only to assistant messages, so a user message's `*` bullet marker is not
collapsed to `-`. -/
theorem compressMessageContent_role_cex :
    compressMessageContent "* item" Role.user = "* item"
    ∧ ("* item" : String) ≠ "- item" := by
  constructor
  · decide
  · decide

/-- C3 (amended): the whitespace passes (3+ newlines to 2, horizontal runs
to one space, leading whitespace after newlines stripped) apply to every
message, but the markdown-marker normalizations (headers collapse to `#`,
`-`/`*`/`+` bullets collapse to `- `, numbered-list markers collapse to
`1. `) apply to assistant messages only; user messages keep their markers. -/
theorem compressMessageContent_normalization :
    (∀ content : String, compressMessageContent content Role.user
        = String.mk (baseCompressChars content.data))
    ∧ (∀ content : String, compressMessageContent content Role.assistant
        = String.mk (markdownNormalizeChars (baseCompressChars content.data)))
    ∧ compressMessageContent "## Title" Role.assistant = "#Title"
    ∧ compressMessageContent "#### Title" Role.assistant = "#Title"
    ∧ compressMessageContent "* item" Role.assistant = "- item"
    ∧ compressMessageContent "+ item" Role.assistant = "- item"
    ∧ compressMessageContent "- item" Role.assistant = "- item"
    ∧ compressMessageContent "23. thing" Role.assistant = "1. thing"
    ∧ compressMessageContent "* item" Role.user = "* item"
    ∧ compressMessageContent "## Title" Role.user = "## Title"
    ∧ compressMessageContent "line1\n\n\n\nline2" Role.user = "line1\n\nline2"
    ∧ compressMessageContent "a  \t b" Role.user = "a b"
    ∧ compressMessageContent "x\n  y" Role.user = "x\ny" := by
  refine ⟨fun _ => rfl, fun _ => rfl, ?_, ?_, ?_, ?_, ?_, ?_, ?_, ?_, ?_, ?_, ?_⟩
  all_goals decide

/-! ## C5: Markdown and JSON export content preservation -/

lemma data_append (s t : String) : (s ++ t).data = s.data ++ t.data := rfl

lemma isInfix_append_right {α : Type} {l t : List α} (s : List α) (h : l <:+: t) :
    l <:+: t ++ s := by
  obtain ⟨u, v, huv⟩ := h
  exact ⟨u, v ++ s, by rw [← huv]; simp⟩

lemma isInfix_append_left {α : Type} {l t : List α} (s : List α) (h : l <:+: t) :
    l <:+: s ++ t := by
  obtain ⟨u, v, huv⟩ := h
  exact ⟨s ++ u, v, by rw [← huv]; simp⟩

lemma mdSections_contains (enc : Encoder) (its itc : Bool) (len : Nat) :
    ∀ (i : Nat) (ms : List ExportMessage) (m : ExportMessage), m ∈ ms →
      m.content.data <:+: (mdSections enc its itc len i ms).data := by
  intro i ms
  induction ms generalizing i with
  | nil =>
      intro m hm
      cases hm
  | cons x rest ih =>
      intro m hm
      rcases List.mem_cons.mp hm with rfl | hm'
      · refine ⟨("## " ++ roleLabelMd m.role
            ++ (if its then " *(" ++ m.timestamp.localeTime ++ ")*" else "")
            ++ (if itc then " *[" ++ toString (countTokens enc m.content) ++ " tokens]*" else "")
            ++ "\n\n").data,
          ("\n\n" ++ (if i < len - 1 then "---\n\n" else "")
            ++ mdSections enc its itc len (i + 1) rest).data, ?_⟩
        show _ ++ _ ++ _ = (mdSections enc its itc len i (m :: rest)).data
        simp only [mdSections, data_append, List.append_assoc]
      · have hrec := ih (i + 1) m hm'
        show m.content.data <:+: (mdSections enc its itc len i (x :: rest)).data
        refine isInfix_append_left ?_ hrec |>.trans ?_
        · exact ("## " ++ roleLabelMd x.role
            ++ (if its then " *(" ++ x.timestamp.localeTime ++ ")*" else "")
            ++ (if itc then " *[" ++ toString (countTokens enc x.content) ++ " tokens]*" else "")
            ++ "\n\n" ++ x.content ++ "\n\n"
            ++ (if i < len - 1 then "---\n\n" else "")).data
        · refine ⟨[], [], ?_⟩
          show [] ++ _ ++ [] = _
          simp only [mdSections, data_append, List.append_assoc, List.append_nil,
            List.nil_append]

lemma jsonEscapeChar_of_no_escape (c : Char) (h : jsonNeedsEscape c = false) :
    jsonEscapeChar c = [c] := by
  simp only [jsonNeedsEscape, Bool.or_eq_false_iff, beq_eq_false_iff_ne, ne_eq,
    decide_eq_false_iff_not] at h
  obtain ⟨⟨h1, h2⟩, h3⟩ := h
  unfold jsonEscapeChar
  rw [if_neg h1, if_neg h2,
    if_neg (fun hc => h3 (by rw [hc]; decide)),
    if_neg (fun hc => h3 (by rw [hc]; decide)),
    if_neg (fun hc => h3 (by rw [hc]; decide)),
    if_neg (fun hc => h3 (by rw [hc]; decide)),
    if_neg (fun hc => h3 (by rw [hc]; decide)),
    if_neg h3]

lemma jsonEscape_of_no_escape :
    ∀ l : List Char, (∀ c ∈ l, jsonNeedsEscape c = false) → jsonEscape l = l := by
  intro l
  induction l with
  | nil => intro _; rfl
  | cons c rest ih =>
      intro h
      show jsonEscapeChar c ++ jsonEscape rest = c :: rest
      rw [jsonEscapeChar_of_no_escape c (h c (List.mem_cons_self c rest)),
        ih (fun d hd => h d (List.mem_cons_of_mem c hd))]
      rfl

lemma jsonQuote_infix_escaped (s : String) :
    jsonEscape s.data <:+: (jsonQuote s).data :=
  List.infix_append ("\"" : String).data (jsonEscape s.data) ("\"" : String).data

lemma jsonMessageItem_contains (enc : Encoder) (its itc : Bool) (m : ExportMessage) :
    (jsonQuote m.content).data <:+: (jsonMessageItem enc its itc m).data := by
  refine ⟨("    \x7b\n      \"role\": " ++ jsonQuote (roleString m.role)
      ++ ",\n      \"content\": ").data,
    ((if its then ",\n      \"timestamp\": " ++ jsonQuote m.timestamp.iso else "")
      ++ (if itc then ",\n      \"tokens\": " ++ toString (countTokens enc m.content) else "")
      ++ "\n    \x7d").data, ?_⟩
  show _ ++ _ ++ _ = (jsonMessageItem enc its itc m).data
  simp only [jsonMessageItem, data_append, List.append_assoc]

lemma jsonItemsJoin_contains (enc : Encoder) (its itc : Bool) :
    ∀ (ms : List ExportMessage) (m : ExportMessage), m ∈ ms →
      (jsonMessageItem enc its itc m).data <:+: (jsonItemsJoin enc its itc ms).data := by
  intro ms
  induction ms with
  | nil =>
      intro m hm
      cases hm
  | cons x rest ih =>
      intro m hm
      rcases rest with _ | ⟨y, ys⟩
      · rcases List.mem_cons.mp hm with rfl | hm'
        · exact List.infix_refl _
        · cases hm'
      · rcases List.mem_cons.mp hm with rfl | hm'
        · exact isInfix_append_right _
            (isInfix_append_right _ (List.infix_refl (jsonMessageItem enc its itc m).data))
        · exact isInfix_append_left _ (ih m hm')

lemma jsonMessagesArray_contains (enc : Encoder) (its itc : Bool)
    (ms : List ExportMessage) (m : ExportMessage) (hm : m ∈ ms) :
    (jsonMessageItem enc its itc m).data <:+: (jsonMessagesArray enc its itc ms).data := by
  have hne : ms ≠ [] := by
    rintro rfl
    cases hm
  unfold jsonMessagesArray
  rw [if_neg hne]
  exact isInfix_append_right _
    (isInfix_append_left _ (jsonItemsJoin_contains enc its itc ms m hm))

lemma exportToJSON_contains_quote (enc : Encoder) (now : String)
    (conv : ExportConversation) (opts : ExportOptions) (m : ExportMessage)
    (hm : m ∈ conv.messages) :
    (jsonQuote m.content).data <:+: (exportToJSON enc now conv opts).data := by
  have h3 := (jsonMessageItem_contains enc (opts.includeTimestamps == some true)
      (opts.includeTokenCounts == some true) m).trans
    (jsonMessagesArray_contains enc (opts.includeTimestamps == some true)
      (opts.includeTokenCounts == some true) conv.messages m hm)
  exact isInfix_append_right _
    (isInfix_append_right _ (isInfix_append_right _ (isInfix_append_left _ h3)))

set_option maxRecDepth 4000 in
/-- Counterexample to C5 as stated for the JSON path: a content string
holding a double quote does not appear verbatim in the JSON text, because
`JSON.stringify` escapes it. -/
theorem exportToJSON_verbatim_cex :
    quoteMsg ∈ quoteConv.messages
    ∧ ¬ (quoteMsg.content.data
          <:+: (exportToJSON encConst "NOW" quoteConv (bareOptions "json")).data) := by
  constructor
  · decide
  · decide

/-- C5 (amended): Markdown export always contains every message's content
verbatim; JSON export always contains every message's content in
JSON-escaped form, and contains it verbatim whenever the content has no
character that JSON string serialization escapes (double quote, backslash,
or control character below U+0020). -/
theorem export_content_preservation :
    (∀ (enc : Encoder) (locStr : Nat → String) (conv : ExportConversation)
        (opts : ExportOptions) (m : ExportMessage), m ∈ conv.messages →
        m.content.data <:+: (exportToMarkdown enc locStr conv opts).data)
    ∧ (∀ (enc : Encoder) (now : String) (conv : ExportConversation)
        (opts : ExportOptions) (m : ExportMessage), m ∈ conv.messages →
        jsonEscape m.content.data <:+: (exportToJSON enc now conv opts).data)
    ∧ (∀ (enc : Encoder) (now : String) (conv : ExportConversation)
        (opts : ExportOptions) (m : ExportMessage), m ∈ conv.messages →
        (∀ c ∈ m.content.data, jsonNeedsEscape c = false) →
        m.content.data <:+: (exportToJSON enc now conv opts).data) := by
  refine ⟨?_, ?_, ?_⟩
  · intro enc locStr conv opts m hm
    exact isInfix_append_left _
      (mdSections_contains enc (opts.includeTimestamps.getD true)
        (opts.includeTokenCounts.getD false) conv.messages.length 0 conv.messages m hm)
  · intro enc now conv opts m hm
    exact (jsonQuote_infix_escaped m.content).trans
      (exportToJSON_contains_quote enc now conv opts m hm)
  · intro enc now conv opts m hm hesc
    have h := (jsonQuote_infix_escaped m.content).trans
      (exportToJSON_contains_quote enc now conv opts m hm)
    rwa [jsonEscape_of_no_escape m.content.data hesc] at h

/-- Witness for C5 (amended) at a one-message conversation whose content
`"hi"` needs no escaping: the content appears verbatim in both exports. -/
theorem export_content_preservation_witness :
    plainMsg ∈ plainConv.messages
    ∧ (∀ c ∈ plainMsg.content.data, jsonNeedsEscape c = false)
    ∧ plainMsg.content.data
        <:+: (exportToMarkdown encConst toString plainConv (bareOptions "markdown")).data
    ∧ plainMsg.content.data
        <:+: (exportToJSON encConst "NOW" plainConv (bareOptions "json")).data :=
  ⟨by decide, by decide,
   export_content_preservation.1 encConst toString plainConv (bareOptions "markdown")
     plainMsg (by decide),
   export_content_preservation.2.2 encConst "NOW" plainConv (bareOptions "json")
     plainMsg (by decide) (by decide)⟩
